import Mathlib

/-!
Shallow embedding of the website-status-checker program
(src/website-status-checker/src/main.rs) and proofs about it.

The HTTP layer is abstracted by an oracle giving the outcome of the n-th
GET attempt (0-indexed) and a duration oracle giving the wall-clock cost
of each attempt.  Everything else — the retry loop of check_website, the
worker pool built on an Arc<Mutex<mpsc::Receiver>> channel, the shared
result vector, the summary statistics and the manual JSON writer — is
translated from the source.
-/

namespace WSC

/-- Embedding of struct WebsiteStatus (main.rs lines 9-14): the url as
given, the HTTP status code (u16, modelled as Nat) or the transport error
message, the response time in milliseconds (u128, modelled as Nat, hence
non-negative by construction), and the timestamp string. -/
structure WebsiteStatus where
  url : String
  status : Except String Nat
  response_time_ms : Nat
  timestamp : String
deriving Repr

/-- Retry loop of check_website (main.rs lines 218-239). oracle n is the
outcome of the n-th GET attempt: an HTTP status code (any code, the source
does resp.status().as_u16() on every received response) or a transport
error description. fuel is retries minus the failures already counted, so
fuel = 0 at a failure means the source's test attempts > retries fires and
the loop returns the error of that last attempt. Returns (outcome, total
attempts made, total sleep in ms); each retry sleeps exactly 100 ms
(thread::sleep(Duration::from_millis(100)) in the source). -/
def checkAux (oracle : Nat → Except String Nat) : Nat → Nat → Except String Nat × Nat × Nat
  | fuel, attempt =>
    match oracle attempt, fuel with
    | .ok c, _ => (.ok c, attempt + 1, 0)
    | .error e, 0 => (.error e, attempt + 1, 0)
    | .error _, f + 1 =>
      let r := checkAux oracle f (attempt + 1)
      (r.1, r.2.1, r.2.2 + 100)

/-- check_website (main.rs lines 218-239): the retry loop started with
attempts = 0 and a fuel of retries failures before giving up. -/
def checkWebsite (oracle : Nat → Except String Nat) (retries : Nat) :
    Except String Nat × Nat × Nat :=
  checkAux oracle retries 0

/-- Timed variant of the same loop: dur n is the wall-clock cost in ms of
the n-th GET attempt. The second component is the elapsed time of the
whole call, each attempt's duration plus 100 ms per inter-attempt sleep,
which is what the Instant::now()/start.elapsed() pair around the
check_website call measures (main.rs lines 130-132). -/
def checkTimed (oracle : Nat → Except String Nat) (dur : Nat → Nat) :
    Nat → Nat → Except String Nat × Nat
  | fuel, attempt =>
    match oracle attempt, fuel with
    | .ok c, _ => (.ok c, dur attempt)
    | .error e, 0 => (.error e, dur attempt)
    | .error _, f + 1 =>
      let r := checkTimed oracle dur f (attempt + 1)
      (r.1, dur attempt + 100 + r.2)

/-- Worker body for one job (main.rs lines 130-139): time check_website
and build the WebsiteStatus record from the outcome, the elapsed
milliseconds and the timestamp captured once the outcome is known. -/
def runCheck (oracle : Nat → Except String Nat) (dur : Nat → Nat)
    (url timestamp : String) (retries : Nat) : WebsiteStatus :=
  let r := checkTimed oracle dur retries 0
  { url := url, status := r.1, response_time_ms := r.2, timestamp := timestamp }

/-- Successful response times (main.rs lines 175-178): the filter_map
collecting response_time_ms of every result whose status is Ok. -/
def successTimes (results : List WebsiteStatus) : List Nat :=
  results.filterMap fun s =>
    match s.status with
    | .ok _ => some s.response_time_ms
    | .error _ => none

/-- Summary-statistic pass of main (main.rs lines 174-191): collect the
response times of the results whose status is Ok, and if any exist sort
them ascending and report (min, max, avg) as (first of sorted, last of
sorted, sum divided by length); with no successful result the source
prints the explicit "No successful responses to summarize." line instead,
modelled as none. The source's Vec::sort (a stable ascending sort) is
modelled by List.insertionSort (· ≤ ·): over a total order any ascending
sort of the same multiset produces the same list, so the algorithm choice
is immaterial. The source's f64 average is modelled as the exact rational
sum / length: the sum and length are computed exactly in u128/usize and
f64 enters only in the final division. The headD/getLastD defaults stand
for the source's unwrap() calls, reachable only on an empty list, which
the is_empty guard excludes. -/
def summarize (results : List WebsiteStatus) : Option (Nat × Nat × ℚ) :=
  let times := successTimes results
  if times.isEmpty then none
  else
    let sorted := times.insertionSort (· ≤ ·)
    some (sorted.headD 0, sorted.getLastD 0, (sorted.sum : ℚ) / (sorted.length : ℚ))

/-- Minimum as the source computes it (main.rs lines 181-182): sort
ascending and take the first element; none on an empty list, where the
source's summary branch is not taken. -/
def sortMin (l : List Nat) : Option Nat :=
  if l.isEmpty then none else some ((l.insertionSort (· ≤ ·)).headD 0)

/-- Maximum as the source computes it (main.rs lines 181-183): sort
ascending and take the last element; none on an empty list. -/
def sortMax (l : List Nat) : Option Nat :=
  if l.isEmpty then none else some ((l.insertionSort (· ≤ ·)).getLastD 0)

/-- Modelled from the spec: "a linear-scan reduction" computing the
minimum of the successful elapsed times, the alternative the spec allows
in place of the sort used by the source. -/
def scanMin : List Nat → Option Nat
  | [] => none
  | x :: xs => some (xs.foldl Nat.min x)

/-- Modelled from the spec: "a linear-scan reduction" computing the
maximum of the successful elapsed times. -/
def scanMax : List Nat → Option Nat
  | [] => none
  | x :: xs => some (xs.foldl Nat.max x)

/-!
Worker-pool model (main.rs lines 116-171).

main creates an mpsc channel, wraps the Receiver in Arc<Mutex<..>>, spawns
worker threads running

  while let Ok(url) = rx.lock().unwrap().recv() { ... }

sends every URL, drops the sender and joins the threads.  Two modelling
points, both read off the source:

* The MutexGuard produced by rx.lock().unwrap() is a temporary in the
  scrutinee of the while-let.  Per Rust's temporary-scope rules such a
  temporary is dropped only at the end of the whole while-let iteration,
  not after recv() returns, so a worker holds the receiver lock for the
  entire loop body including the check_website call, and releases it only
  between iterations (or when recv fails and the loop exits).  The states
  hasLock and checking therefore both hold the lock.

* All URLs are sent before the sender is dropped, and a worker whose
  recv finds the queue empty but the channel open simply blocks (it takes
  no visible step), so for every property observed at the drain barrier
  the channel can be modelled as pre-filled with the whole URL list and
  already closed: recv returns the next queued URL, or Err once the queue
  is empty.

A worker is idle (about to call rx.lock()), hasLock (lock acquired, recv
in progress), checking url (recv returned a URL; timing, check_website,
printing and the result push happen before the guard drops), or done (recv
returned Err and the thread's closure returned).
-/

/-- State of one worker thread in the pool (main.rs lines 128-156). -/
inductive WStatus where
  | idle
  | hasLock
  | checking (url : String)
  | done
deriving DecidableEq, Repr

/-- Shared state of the run: the queued URLs still in the channel, the
holder of the receiver mutex, each worker's state, and the shared results
vector (represented by the urls of the pushed results, in push order). -/
structure PoolState (n : Nat) where
  queue : List String
  lock : Option (Fin n)
  workers : Fin n → WStatus
  results : List String

/-- Labelled transitions of the pool, one label per acting worker.
acquire: an idle worker obtains the free receiver mutex (rx.lock()).
recv: the lock holder pops the next queued URL and enters the loop body
still holding the lock (the while-let guard temporary is still alive).
closed: recv on the empty, closed channel returns Err; the guard drops
and the worker's loop exits.
push: the worker finishes its check, pushes the result and reaches the
end of the iteration, where the guard temporary finally drops. -/
inductive PStep {n : Nat} : Fin n → PoolState n → PoolState n → Prop
  | acquire (w : Fin n) (s : PoolState n) :
      s.workers w = .idle → s.lock = none →
      PStep w s { s with lock := some w,
                         workers := Function.update s.workers w .hasLock }
  | recv (w : Fin n) (s : PoolState n) (u : String) (rest : List String) :
      s.workers w = .hasLock → s.queue = u :: rest →
      PStep w s { s with queue := rest,
                         workers := Function.update s.workers w (.checking u) }
  | closed (w : Fin n) (s : PoolState n) :
      s.workers w = .hasLock → s.queue = [] →
      PStep w s { s with lock := none,
                         workers := Function.update s.workers w .done }
  | push (w : Fin n) (s : PoolState n) (u : String) :
      s.workers w = .checking u →
      PStep w s { s with lock := none,
                         results := s.results ++ [u],
                         workers := Function.update s.workers w .idle }

/-- A step by some worker. -/
def StepAny {n : Nat} (s t : PoolState n) : Prop := ∃ w, PStep w s t

/-- The state right after main sent all URLs and dropped the sender, with
every spawned worker at the top of its loop. -/
def initState (n : Nat) (urls : List String) : PoolState n :=
  { queue := urls, lock := none, workers := fun _ => .idle, results := [] }

/-- States the run can be in, for a pool of n workers over urls. -/
def Reachable (n : Nat) (urls : List String) (s : PoolState n) : Prop :=
  Relation.ReflTransGen StepAny (initState n urls) s

/-- Multiset contribution of one worker to the in-flight jobs. -/
def inFlight : WStatus → Multiset String
  | .checking u => {u}
  | _ => 0

/-- Run invariant: the receiver lock is held by any worker that is between
its rx.lock() call and the end of that iteration; a worker only exits its
loop after seeing the queue empty, and the queue never grows; and every
input URL is accounted for exactly once — still queued, in flight inside
some worker, or pushed to the results. -/
structure PoolInv (n : Nat) (urls : List String) (s : PoolState n) : Prop where
  lockOwner : ∀ w, s.workers w = .hasLock ∨ (∃ u, s.workers w = .checking u) →
    s.lock = some w
  doneEmpty : ∀ w, s.workers w = .done → s.queue = []
  accounted : (↑s.queue : Multiset String) + (∑ w : Fin n, inFlight (s.workers w)) +
    ↑s.results = ↑urls

/-- A concrete mid-run state of a 2-worker pool over two URLs: worker 0
has pulled "http://slow" and is inside its attempt sequence, still holding
the receiver lock because the while-let guard temporary is alive; worker 1
is at the top of its loop, about to call rx.lock(). -/
def blockedState : PoolState 2 :=
  { queue := ["http://fast"],
    lock := some 0,
    workers := Function.update
      (Function.update (fun _ => WStatus.idle) 0 .hasLock) 0 (.checking "http://slow"),
    results := [] }

/-- Run configuration as main holds it right before dispatch (main.rs
lines 27-31 after parsing): the URL list, the worker count, the timeout in
seconds and the retry count. -/
structure RunConfig where
  urls : List String
  workers : Nat
  timeout : Nat
  retries : Nat
deriving DecidableEq, Repr

/-- Rust's unsigned-integer FromStr, as used on the flag values (main.rs
lines 48, 60, 72): an optional leading plus sign followed by one or more
ASCII digits; anything else is a parse error, which the source turns into
exit code 2. Overflow is not modelled. -/
def parseNatStr (s : String) : Option Nat :=
  let cs := match s.data with
    | '+' :: rest => rest
    | cs => cs
  if cs.isEmpty then none
  else if cs.all (fun c => c.isDigit) then
    some (cs.foldl (fun acc c => acc * 10 + (c.toNat - 48)) 0)
  else none

/-- Mutable locals of the argument loop (main.rs lines 27-31): optional
--file path, URLs collected so far, workers (initialised from
num_cpus::get()), timeout (default 5 s), retries (default 0). -/
structure ArgState where
  filePath : Option String
  urls : List String
  workers : Nat
  timeout : Nat
  retries : Nat
deriving Repr

/-- Argument loop of main (main.rs lines 33-88), one recursive step per
iteration: each of the four flags consumes a value, exiting with code 2
when the value is missing or (for the numeric flags) unparseable, and any
other argument — whatever it looks like — is pushed as a URL. -/
def parseArgs (st : ArgState) : List String → Except Nat ArgState
  | [] => .ok st
  | a :: rest =>
    if a = "--file" then
      match rest with
      | v :: rest' => parseArgs { st with filePath := some v } rest'
      | [] => .error 2
    else if a = "--workers" then
      match rest with
      | v :: rest' =>
        match parseNatStr v with
        | some k => parseArgs { st with workers := k } rest'
        | none => .error 2
      | [] => .error 2
    else if a = "--timeout" then
      match rest with
      | v :: rest' =>
        match parseNatStr v with
        | some k => parseArgs { st with timeout := k } rest'
        | none => .error 2
      | [] => .error 2
    else if a = "--retries" then
      match rest with
      | v :: rest' =>
        match parseNatStr v with
        | some k => parseArgs { st with retries := k } rest'
        | none => .error 2
      | [] => .error 2
    else
      parseArgs { st with urls := st.urls ++ [a] } rest

/-- URL-file expansion (main.rs lines 91-106): each line is trimmed,
empty lines and lines starting with # are skipped, the rest are appended
after the command-line URLs. -/
def fileUrls (contents : String) : List String :=
  (contents.splitOn "\n").filterMap fun line =>
    let t := line.trim
    if t.isEmpty || t.startsWith "#" then none else some t

/-- Setup phase of main (main.rs lines 16-113): with fewer than two argv
entries it prints usage and exits 2; otherwise it runs the argument loop
over argv minus the program name, expands --file when given (exiting 2 on
a read failure), and exits 2 when the resulting URL list is empty. error c
means the process exited with code c before the dispatch phase (channel
creation and worker spawning, main.rs line 116 onward); ok cfg is the
configuration dispatch starts from. cpuCount stands for num_cpus::get()
and readFile abstracts fs::read_to_string. -/
def mainSetup (cpuCount : Nat) (readFile : String → Except String String)
    (args : List String) : Except Nat RunConfig :=
  if args.length < 2 then .error 2
  else
    match parseArgs ⟨none, [], cpuCount, 5, 0⟩ args.tail with
    | .error c => .error c
    | .ok st =>
      match st.filePath with
      | none =>
        if st.urls.isEmpty then .error 2
        else .ok ⟨st.urls, st.workers, st.timeout, st.retries⟩
      | some p =>
        match readFile p with
        | .ok contents =>
          let urls := st.urls ++ fileUrls contents
          if urls.isEmpty then .error 2
          else .ok ⟨urls, st.workers, st.timeout, st.retries⟩
        | .error _ => .error 2

/-!
Manual JSON report (main.rs lines 193-213), and a deliberately permissive
JSON well-formedness checker used to state C10. The checker accepts a
superset of RFC 8259 JSON — inside string literals a backslash escapes
any single character and every character is otherwise allowed, numbers
are any run of number-ish characters after a digit or minus sign — so
when even this checker rejects a document, the document is certainly not
valid JSON.
-/

/-- Rendering of the status field (main.rs lines 196-199): the Ok code,
or the Err message interpolated verbatim between quotes. -/
def statusJson : Except String Nat → String
  | .ok code => "\"Ok\": " ++ toString code
  | .error err => "\"Err\": \"" ++ err ++ "\""

/-- One array entry (main.rs lines 200-203): url, status, response time
and timestamp spliced verbatim into the format template. -/
def entryJson (s : WebsiteStatus) : String :=
  "  \x7b\n    \"url\": \"" ++ s.url ++ "\",\n    \"status\": \x7b " ++
    statusJson s.status ++ " \x7d,\n    \"response_time_ms\": " ++
    toString s.response_time_ms ++ ",\n    \"timestamp\": \"" ++
    s.timestamp ++ "\"\n  \x7d"

/-- The whole status.json content (main.rs lines 194-209): the entries
joined by ",\n" between brackets. -/
def reportJson (results : List WebsiteStatus) : String :=
  "[\n" ++ String.intercalate ",\n" (results.map entryJson) ++ "\n]\n"

/-- JSON insignificant whitespace. -/
def jsonWs (c : Char) : Bool :=
  c = ' ' || c = '\n' || c = '\t' || c = '\r'

/-- Drop leading JSON whitespace. -/
def skipWs : List Char → List Char
  | [] => []
  | c :: cs => if jsonWs c then skipWs cs else c :: cs

/-- Characters allowed to continue a (permissively lexed) JSON number. -/
def numChar (c : Char) : Bool :=
  c.isDigit || c = '-' || c = '+' || c = '.' || c = 'e' || c = 'E'

/-- Consume the rest of a string literal after the opening quote,
permissively: a backslash escapes any one character, everything else is
allowed; returns the input after the closing quote. -/
def strRest : List Char → Option (List Char)
  | [] => none
  | '"' :: cs => some cs
  | '\\' :: [] => none
  | '\\' :: _ :: cs => strRest cs
  | _ :: cs => strRest cs

/-- Expect the given literal characters. -/
def litRest : List Char → List Char → Option (List Char)
  | [], cs => some cs
  | _ :: _, [] => none
  | l :: ls, c :: cs => if c = l then litRest ls cs else none

mutual

/-- Consume one JSON value, returning the remaining input; fuel bounds
the recursion. -/
def valRest : Nat → List Char → Option (List Char)
  | 0, _ => none
  | fuel + 1, cs =>
    match skipWs cs with
    | [] => none
    | '"' :: cs' => strRest cs'
    | '\x7b' :: cs' =>
      match skipWs cs' with
      | '\x7d' :: cs2 => some cs2
      | cs2 => membersRest fuel cs2
    | '[' :: cs' =>
      match skipWs cs' with
      | ']' :: cs2 => some cs2
      | cs2 => elemsRest fuel cs2
    | 't' :: cs' => litRest ['r', 'u', 'e'] cs'
    | 'f' :: cs' => litRest ['a', 'l', 's', 'e'] cs'
    | 'n' :: cs' => litRest ['u', 'l', 'l'] cs'
    | c :: cs' => if c.isDigit || c = '-' then some (cs'.dropWhile numChar) else none

/-- Consume the elements of an array after its first character, up to and
including the closing bracket. -/
def elemsRest : Nat → List Char → Option (List Char)
  | 0, _ => none
  | fuel + 1, cs =>
    match valRest fuel cs with
    | none => none
    | some cs' =>
      match skipWs cs' with
      | ',' :: cs2 => elemsRest fuel cs2
      | ']' :: cs2 => some cs2
      | _ => none

/-- Consume the members of an object after its first character, up to and
including the closing brace. -/
def membersRest : Nat → List Char → Option (List Char)
  | 0, _ => none
  | fuel + 1, cs =>
    match skipWs cs with
    | '"' :: cs' =>
      match strRest cs' with
      | none => none
      | some cs2 =>
        match skipWs cs2 with
        | ':' :: cs3 =>
          match valRest fuel cs3 with
          | none => none
          | some cs4 =>
            match skipWs cs4 with
            | ',' :: cs5 => membersRest fuel cs5
            | '\x7d' :: cs5 => some cs5
            | _ => none
        | _ => none
    | _ => none

end

/-- A string is well-formed JSON when one value followed only by
whitespace consumes the whole text. Fuel 2 * length + 2 always suffices:
along any chain of recursive calls at least one input character is
consumed for every two fuel units spent, so the checker can only answer
false on a well-formed document through a genuine syntax mismatch, never
through fuel exhaustion. -/
def jsonValid (s : String) : Bool :=
  match valRest (2 * s.length + 2) s.data with
  | some rest => (skipWs rest).isEmpty
  | none => false

/- ------------------------------------------------------------------ -/
/- Theorems about the retry loop                                       -/
/- ------------------------------------------------------------------ -/

theorem checkAux_all_error (oracle : Nat → Except String Nat) (errs : Nat → String)
    (h : ∀ n, oracle n = .error (errs n)) :
    ∀ (fuel a : Nat),
      checkAux oracle fuel a = (.error (errs (a + fuel)), a + fuel + 1, 100 * fuel) := by
  intro fuel
  induction fuel with
  | zero =>
    intro a
    simp [checkAux, h a]
  | succ f ih =>
    intro a
    have hrec := ih (a + 1)
    have harith : a + 1 + f = a + (f + 1) := by omega
    rw [harith] at hrec
    simp [checkAux, h a, hrec]
    omega

/-- C2: if every HTTP attempt fails at the transport level then
check_website with max_retries = R makes exactly R + 1 attempts, sleeps
100 ms before each of the R retries (100 * R ms in total), and returns the
error description of the last attempt (attempt index R); in particular
R = 0 gives one attempt and zero sleep. -/
theorem c2_all_fail_retry_count (R : Nat) (oracle : Nat → Except String Nat)
    (errs : Nat → String) (h : ∀ n, oracle n = .error (errs n)) :
    checkWebsite oracle R = (.error (errs R), R + 1, 100 * R) := by
  have := checkAux_all_error oracle errs h R 0
  simpa [checkWebsite] using this

theorem c2_all_fail_retry_count_wit :
    checkWebsite (fun _ => .error "connection refused") 1 =
      (.error "connection refused", 2, 100) :=
  c2_all_fail_retry_count 1 (fun _ => .error "connection refused")
    (fun _ => "connection refused") (fun _ => rfl)

theorem checkAux_ok_shift (oracle : Nat → Except String Nat) (c : Nat) :
    ∀ (k fuel a : Nat), k ≤ fuel →
      (∀ n, n < k → ∃ e, oracle (a + n) = .error e) →
      oracle (a + k) = .ok c →
      checkAux oracle fuel a = (.ok c, a + k + 1, 100 * k) := by
  intro k
  induction k with
  | zero =>
    intro fuel a _ _ hok
    rw [Nat.add_zero] at hok
    cases fuel <;> simp [checkAux, hok]
  | succ k ih =>
    intro fuel a hk hfail hok
    obtain ⟨e, he⟩ := hfail 0 (Nat.succ_pos k)
    rw [Nat.add_zero] at he
    obtain ⟨f, rfl⟩ : ∃ f, fuel = f + 1 := ⟨fuel - 1, by omega⟩
    have hrec := ih f (a + 1) (by omega)
      (fun n hn => by
        obtain ⟨e', he'⟩ := hfail (n + 1) (by omega)
        exact ⟨e', by rw [show a + 1 + n = a + (n + 1) by omega]; exact he'⟩)
      (by rw [show a + 1 + k = a + (k + 1) by omega]; exact hok)
    simp [checkAux, he, hrec]
    omega

/-- C3: if the first k attempts fail at the transport level, k does not
exceed max_retries, and attempt k receives a response with status code c
(any code, 4xx/5xx included), then check_website returns Success(c) on
that attempt: k + 1 attempts in total, no further retries, and the status
is never converted into a Failure. -/
theorem c3_success_short_circuit (R k c : Nat) (oracle : Nat → Except String Nat)
    (hk : k ≤ R) (hfail : ∀ n, n < k → ∃ e, oracle n = .error e)
    (hok : oracle k = .ok c) :
    checkWebsite oracle R = (.ok c, k + 1, 100 * k) := by
  have := checkAux_ok_shift oracle c k R 0 hk (by simpa using hfail) (by simpa using hok)
  simpa [checkWebsite] using this

theorem c3_success_short_circuit_wit :
    checkWebsite (fun n => if n = 0 then .error "refused" else .ok 404) 1 =
      (.ok 404, 2, 100) :=
  c3_success_short_circuit 1 1 404 (fun n => if n = 0 then .error "refused" else .ok 404)
    (by omega)
    (fun n hn => ⟨"refused", by
      cases n with
      | zero => rfl
      | succ m => exact absurd hn (by omega)⟩)
    rfl

theorem checkAux_attempt_lt (oracle : Nat → Except String Nat) :
    ∀ (fuel a : Nat), a < (checkAux oracle fuel a).2.1 := by
  intro fuel
  induction fuel with
  | zero =>
    intro a
    cases h : oracle a <;> simp [checkAux, h]
  | succ f ih =>
    intro a
    cases h : oracle a with
    | ok c => simp [checkAux, h]
    | error e =>
      have := ih (a + 1)
      simp [checkAux, h]
      omega

theorem checkTimed_spec (oracle : Nat → Except String Nat) (dur : Nat → Nat) :
    ∀ (fuel a : Nat),
      (checkTimed oracle dur fuel a).1 = (checkAux oracle fuel a).1 ∧
      (checkTimed oracle dur fuel a).2 =
        (∑ i ∈ Finset.Ico a (checkAux oracle fuel a).2.1, dur i) +
          (checkAux oracle fuel a).2.2 := by
  intro fuel
  induction fuel with
  | zero =>
    intro a
    cases h : oracle a <;>
      simp [checkTimed, checkAux, h, Finset.sum_Ico_succ_top (Nat.le_refl a)]
  | succ f ih =>
    intro a
    cases h : oracle a with
    | ok c =>
      simp [checkTimed, checkAux, h, Finset.sum_Ico_succ_top (Nat.le_refl a)]
    | error e =>
      obtain ⟨h1, h2⟩ := ih (a + 1)
      have hlt : a < (checkAux oracle f (a + 1)).2.1 :=
        Nat.lt_trans (Nat.lt_succ_self a) (checkAux_attempt_lt oracle f (a + 1))
      have hsplit := Finset.sum_eq_sum_Ico_succ_bot hlt dur
      simp [checkTimed, checkAux, h, h1, h2]
      omega

theorem checkAux_ok_last (oracle : Nat → Except String Nat) (c : Nat) :
    ∀ (fuel a : Nat), (checkAux oracle fuel a).1 = .ok c →
      oracle ((checkAux oracle fuel a).2.1 - 1) = .ok c := by
  intro fuel
  induction fuel with
  | zero =>
    intro a hok
    cases h : oracle a with
    | ok c' =>
      simp [checkAux, h] at hok ⊢
      rw [← hok]
    | error e => simp [checkAux, h] at hok
  | succ f ih =>
    intro a hok
    cases h : oracle a with
    | ok c' =>
      simp [checkAux, h] at hok ⊢
      rw [← hok]
    | error e =>
      simp [checkAux, h] at hok ⊢
      exact ih (a + 1) hok

/-- C8: for every attempt oracle, duration oracle, url, timestamp and
retry budget, the produced WebsiteStatus has a non-negative elapsed time
that equals the sum of the durations of all attempts made plus the total
inter-attempt sleep time (the wall clock of the entire attempt sequence,
from the start of the first attempt to final resolution), and whenever its
status is Ok c the resolving attempt's response status was exactly c
(4xx/5xx included). -/
theorem c8_elapsed_and_status (oracle : Nat → Except String Nat) (dur : Nat → Nat)
    (url ts : String) (R : Nat) :
    0 ≤ (runCheck oracle dur url ts R).response_time_ms ∧
    (runCheck oracle dur url ts R).response_time_ms =
      (∑ i ∈ Finset.range (checkWebsite oracle R).2.1, dur i) +
        (checkWebsite oracle R).2.2 ∧
    (∀ c, (runCheck oracle dur url ts R).status = .ok c →
      oracle ((checkWebsite oracle R).2.1 - 1) = .ok c) := by
  obtain ⟨h1, h2⟩ := checkTimed_spec oracle dur R 0
  refine ⟨Nat.zero_le _, ?_, ?_⟩
  · rw [Finset.range_eq_Ico]
    exact h2
  · intro c hc
    have : (checkAux oracle R 0).1 = .ok c := by
      rw [← h1]
      exact hc
    exact checkAux_ok_last oracle c R 0 this

theorem c8_elapsed_and_status_wit :
    0 ≤ (runCheck (fun _ => .ok 503) (fun _ => 7) "http://a" "t" 2).response_time_ms ∧
    (runCheck (fun _ => .ok 503) (fun _ => 7) "http://a" "t" 2).response_time_ms =
      (∑ i ∈ Finset.range (checkWebsite (fun _ => .ok 503) 2).2.1, (fun _ => 7) i) +
        (checkWebsite (fun _ => .ok 503) 2).2.2 ∧
    (∀ c, (runCheck (fun _ => .ok 503) (fun _ => 7) "http://a" "t" 2).status = .ok c →
      (fun _ => .ok 503 : Nat → Except String Nat)
        ((checkWebsite (fun _ => .ok 503) 2).2.1 - 1) = .ok c) :=
  c8_elapsed_and_status (fun _ => .ok 503) (fun _ => 7) "http://a" "t" 2

/- ------------------------------------------------------------------ -/
/- Theorems about the summary statistics                               -/
/- ------------------------------------------------------------------ -/

theorem c4_summary_empty_and_example :
    (∀ results : List WebsiteStatus,
      (∀ r ∈ results, ∃ e, r.status = .error e) → summarize results = none) ∧
    summarize
      [⟨"a", .ok 200, 10, "t1"⟩, ⟨"b", .ok 204, 20, "t2"⟩, ⟨"c", .ok 500, 30, "t3"⟩] =
      some (10, 30, 20) := by
  constructor
  · intro results h
    have hnil : successTimes results = [] := by
      rw [successTimes, List.filterMap_eq_nil_iff]
      intro r hr
      obtain ⟨e, he⟩ := h r hr
      simp [he]
    simp [summarize, hnil]
  · simp [summarize, successTimes]
    norm_num [List.insertionSort, List.orderedInsert]

theorem c4_summary_empty_and_example_wit :
    summarize [⟨"x", .error "operation timed out", 7, "t"⟩] = none ∧
    summarize
      [⟨"a", .ok 200, 10, "t1"⟩, ⟨"b", .ok 204, 20, "t2"⟩, ⟨"c", .ok 500, 30, "t3"⟩] =
      some (10, 30, 20) :=
  ⟨c4_summary_empty_and_example.1 [⟨"x", .error "operation timed out", 7, "t"⟩]
      (fun r hr => by
        rw [List.mem_singleton.1 hr]
        exact ⟨"operation timed out", rfl⟩),
    c4_summary_empty_and_example.2⟩

theorem perm_isEmpty_eq {α : Type} {l₁ l₂ : List α} (h : l₁.Perm l₂) :
    l₁.isEmpty = l₂.isEmpty := by
  cases l₁ with
  | nil =>
    have := h.nil_eq
    simp [← this]
  | cons a t =>
    cases l₂ with
    | nil => exact absurd h.symm.nil_eq (by simp)
    | cons b t' => simp

theorem insertionSort_eq_of_perm {l₁ l₂ : List Nat} (h : l₁.Perm l₂) :
    l₁.insertionSort (· ≤ ·) = l₂.insertionSort (· ≤ ·) :=
  List.eq_of_perm_of_sorted
    ((List.perm_insertionSort _ _).trans (h.trans (List.perm_insertionSort _ _).symm))
    (List.sorted_insertionSort _ _) (List.sorted_insertionSort _ _)

theorem c6_summary_perm_invariant (l₁ l₂ : List WebsiteStatus) (h : l₁.Perm l₂) :
    summarize l₁ = summarize l₂ := by
  have hperm : (successTimes l₁).Perm (successTimes l₂) := h.filterMap _
  have hempty := perm_isEmpty_eq hperm
  have hsort := insertionSort_eq_of_perm hperm
  rw [summarize, summarize, hempty, hsort]

theorem c6_summary_perm_invariant_wit :
    summarize [⟨"a", .ok 200, 10, "t"⟩, ⟨"b", .error "x", 99, "t"⟩] =
      summarize [⟨"b", .error "x", 99, "t"⟩, ⟨"a", .ok 200, 10, "t"⟩] :=
  c6_summary_perm_invariant _ _ (List.Perm.swap _ _ _)

theorem foldl_min_le_init : ∀ (xs : List Nat) (a : Nat), xs.foldl Nat.min a ≤ a := by
  intro xs
  induction xs with
  | nil => intro a; exact Nat.le_refl a
  | cons x xs ih =>
    intro a
    exact Nat.le_trans (ih (Nat.min a x)) (Nat.min_le_left a x)

theorem foldl_min_le_mem : ∀ (xs : List Nat) (a b : Nat), b ∈ xs → xs.foldl Nat.min a ≤ b := by
  intro xs
  induction xs with
  | nil => intro a b hb; cases hb
  | cons x xs ih =>
    intro a b hb
    rcases List.mem_cons.1 hb with hbx | hbxs
    · subst hbx
      exact Nat.le_trans (foldl_min_le_init xs (Nat.min a b)) (Nat.min_le_right a b)
    · exact ih (Nat.min a x) b hbxs

theorem foldl_min_mem_or : ∀ (xs : List Nat) (a : Nat),
    xs.foldl Nat.min a = a ∨ xs.foldl Nat.min a ∈ xs := by
  intro xs
  induction xs with
  | nil => intro a; exact Or.inl rfl
  | cons x xs ih =>
    intro a
    rcases ih (Nat.min a x) with heq | hmem
    · have hor : Nat.min a x = a ∨ Nat.min a x = x := by
        rcases Nat.le_total a x with hax | hxa
        · exact Or.inl (Nat.min_eq_left hax)
        · exact Or.inr (Nat.min_eq_right hxa)
      rcases hor with hl | hr
      · exact Or.inl (by rw [List.foldl_cons, heq, hl])
      · exact Or.inr (by rw [List.foldl_cons, heq, hr]; exact List.mem_cons_self x xs)
    · exact Or.inr (List.mem_cons_of_mem x hmem)

theorem foldl_max_init_le : ∀ (xs : List Nat) (a : Nat), a ≤ xs.foldl Nat.max a := by
  intro xs
  induction xs with
  | nil => intro a; exact Nat.le_refl a
  | cons x xs ih =>
    intro a
    exact Nat.le_trans (Nat.le_max_left a x) (ih (Nat.max a x))

theorem foldl_max_mem_le : ∀ (xs : List Nat) (a b : Nat), b ∈ xs → b ≤ xs.foldl Nat.max a := by
  intro xs
  induction xs with
  | nil => intro a b hb; cases hb
  | cons x xs ih =>
    intro a b hb
    rcases List.mem_cons.1 hb with hbx | hbxs
    · subst hbx
      exact Nat.le_trans (Nat.le_max_right a b) (foldl_max_init_le xs (Nat.max a b))
    · exact ih (Nat.max a x) b hbxs

theorem foldl_max_mem_or : ∀ (xs : List Nat) (a : Nat),
    xs.foldl Nat.max a = a ∨ xs.foldl Nat.max a ∈ xs := by
  intro xs
  induction xs with
  | nil => intro a; exact Or.inl rfl
  | cons x xs ih =>
    intro a
    rcases ih (Nat.max a x) with heq | hmem
    · have hor : Nat.max a x = a ∨ Nat.max a x = x := by
        rcases Nat.le_total a x with hax | hxa
        · exact Or.inr (Nat.max_eq_right hax)
        · exact Or.inl (Nat.max_eq_left hxa)
      rcases hor with hl | hr
      · exact Or.inl (by rw [List.foldl_cons, heq, hl])
      · exact Or.inr (by rw [List.foldl_cons, heq, hr]; exact List.mem_cons_self x xs)
    · exact Or.inr (List.mem_cons_of_mem x hmem)

theorem getLastD_mem_or : ∀ (l : List Nat) (d : Nat), l.getLastD d = d ∨ l.getLastD d ∈ l := by
  intro l
  induction l with
  | nil => intro d; exact Or.inl rfl
  | cons b l ih =>
    intro d
    rw [List.getLastD_cons]
    rcases ih b with heq | hmem
    · exact Or.inr (by rw [heq]; exact List.mem_cons_self b l)
    · exact Or.inr (List.mem_cons_of_mem b hmem)

theorem sorted_le_getLastD : ∀ (l : List Nat), l.Sorted (· ≤ ·) →
    ∀ b ∈ l, ∀ d, b ≤ l.getLastD d := by
  intro l
  induction l with
  | nil => intro _ b hb; cases hb
  | cons a l ih =>
    intro hs b hb d
    rw [List.getLastD_cons]
    rcases List.mem_cons.1 hb with hba | hbl
    · subst hba
      rcases getLastD_mem_or l b with heq | hmem
      · rw [heq]
      · exact List.rel_of_sorted_cons hs _ hmem
    · exact ih ((List.sorted_cons.1 hs).2) b hbl a

/-- C7: on every list of successful elapsed times the source's sort-based
min and max (sort ascending, take first and last) agree with the
spec-allowed linear-scan reduction of the same list; stated for all lists
(both sides are none exactly on the empty list), which covers every
non-empty list as the claim requires. -/
theorem c7_sort_scan_agree (l : List Nat) :
    sortMin l = scanMin l ∧ sortMax l = scanMax l := by
  cases l with
  | nil => exact ⟨rfl, rfl⟩
  | cons x xs =>
    have hperm := List.perm_insertionSort (α := Nat) (· ≤ ·) (x :: xs)
    have hsorted := List.sorted_insertionSort (α := Nat) (· ≤ ·) (x :: xs)
    have hne : (x :: xs).insertionSort (· ≤ ·) ≠ [] := by
      intro hc
      have := hperm.length_eq
      rw [hc] at this
      simp at this
    obtain ⟨m, t, hmt⟩ := List.exists_cons_of_ne_nil hne
    rw [hmt] at hperm hsorted
    have hmem_iff : ∀ b, b ∈ m :: t ↔ b ∈ x :: xs := fun b => hperm.mem_iff
    have hm_le : ∀ b ∈ x :: xs, m ≤ b := by
      intro b hb
      rcases List.mem_cons.1 ((hmem_iff b).2 hb) with hbm | hbt
      · rw [hbm]
      · exact List.rel_of_sorted_cons hsorted b hbt
    have h_le_last : ∀ b ∈ x :: xs, b ≤ (m :: t).getLastD 0 := by
      intro b hb
      exact sorted_le_getLastD (m :: t) hsorted b ((hmem_iff b).2 hb) 0
    constructor
    · have hfold_mem : xs.foldl Nat.min x ∈ x :: xs := by
        rcases foldl_min_mem_or xs x with heq | hmem
        · rw [heq]; exact List.mem_cons_self x xs
        · exact List.mem_cons_of_mem x hmem
      have h1 : m ≤ xs.foldl Nat.min x := hm_le _ hfold_mem
      have h2 : xs.foldl Nat.min x ≤ m := by
        rcases List.mem_cons.1 ((hmem_iff m).1 (List.mem_cons_self m t)) with hmx | hmxs
        · rw [hmx]; exact foldl_min_le_init xs x
        · exact foldl_min_le_mem xs x m hmxs
      have hmin : m = xs.foldl Nat.min x := Nat.le_antisymm h1 h2
      show some (((x :: xs).insertionSort (· ≤ ·)).headD 0) = some (xs.foldl Nat.min x)
      rw [hmt, List.headD_cons, hmin]
    · have hfold_mem : xs.foldl Nat.max x ∈ x :: xs := by
        rcases foldl_max_mem_or xs x with heq | hmem
        · rw [heq]; exact List.mem_cons_self x xs
        · exact List.mem_cons_of_mem x hmem
      have h1 : xs.foldl Nat.max x ≤ (m :: t).getLastD 0 := h_le_last _ hfold_mem
      have h2 : (m :: t).getLastD 0 ≤ xs.foldl Nat.max x := by
        have hlast_mem : (m :: t).getLastD 0 ∈ x :: xs := by
          apply (hmem_iff _).1
          rw [List.getLastD_cons]
          rcases getLastD_mem_or t m with heqt | hmemt
          · rw [heqt]; exact List.mem_cons_self m t
          · exact List.mem_cons_of_mem m hmemt
        rcases List.mem_cons.1 hlast_mem with hx | hxs
        · rw [hx]; exact foldl_max_init_le xs x
        · exact foldl_max_mem_le xs x _ hxs
      have hmax : (m :: t).getLastD 0 = xs.foldl Nat.max x := Nat.le_antisymm h2 h1
      show some (((x :: xs).insertionSort (· ≤ ·)).getLastD 0) = some (xs.foldl Nat.max x)
      rw [hmt, hmax]

/- ------------------------------------------------------------------ -/
/- Theorems about the worker pool                                      -/
/- ------------------------------------------------------------------ -/

theorem sum_inFlight_update {n : Nat} (f : Fin n → WStatus) (w : Fin n) (b : WStatus) :
    (∑ x : Fin n, inFlight (Function.update f w b x)) + inFlight (f w) =
      (∑ x : Fin n, inFlight (f x)) + inFlight b := by
  have h1 : ∀ x, inFlight (Function.update f w b x) =
      Function.update (fun k => inFlight (f k)) w (inFlight b) x :=
    Function.apply_update (fun _ s => inFlight s) f w b
  rw [Finset.sum_congr rfl fun x _ => h1 x,
    Finset.sum_update_of_mem (Finset.mem_univ w),
    Finset.sdiff_singleton_eq_erase,
    ← Finset.sum_erase_add Finset.univ (fun k => inFlight (f k)) (Finset.mem_univ w)]
  abel

theorem inv_init (n : Nat) (urls : List String) : PoolInv n urls (initState n urls) := by
  refine ⟨?_, ?_, ?_⟩
  · intro w hw
    rcases hw with h | ⟨u, h⟩ <;> exact absurd h (by simp [initState])
  · intro w h
    exact absurd h (by simp [initState])
  · simp [initState, inFlight]

theorem inv_step {n : Nat} {urls : List String} {w : Fin n} {s t : PoolState n}
    (hinv : PoolInv n urls s) (hstep : PStep w s t) : PoolInv n urls t := by
  cases hstep with
  | acquire hidle hfree =>
    refine ⟨?_, ?_, ?_⟩
    · intro w' hw'
      dsimp only at hw' ⊢
      by_cases hww : w' = w
      · subst hww; rfl
      · rw [Function.update_noteq hww _ _] at hw'
        have hlk := hinv.lockOwner w' hw'
        rw [hfree] at hlk
        exact Option.noConfusion hlk
    · intro w' h
      dsimp only at h ⊢
      by_cases hww : w' = w
      · subst hww
        rw [Function.update_same] at h
        exact WStatus.noConfusion h
      · rw [Function.update_noteq hww _ _] at h
        exact hinv.doneEmpty w' h
    · dsimp only
      have hsum := sum_inFlight_update s.workers w .hasLock
      rw [hidle, show inFlight WStatus.idle = 0 from rfl,
        show inFlight WStatus.hasLock = 0 from rfl, add_zero, add_zero] at hsum
      rw [hsum]
      exact hinv.accounted
  | recv u rest hlock hq =>
    refine ⟨?_, ?_, ?_⟩
    · intro w' hw'
      dsimp only at hw' ⊢
      by_cases hww : w' = w
      · rw [hww]
        exact hinv.lockOwner w (Or.inl hlock)
      · rw [Function.update_noteq hww _ _] at hw'
        exact hinv.lockOwner w' hw'
    · intro w' h
      dsimp only at h ⊢
      by_cases hww : w' = w
      · subst hww
        rw [Function.update_same] at h
        exact WStatus.noConfusion h
      · rw [Function.update_noteq hww _ _] at h
        have hnil := hinv.doneEmpty w' h
        rw [hq] at hnil
        exact List.noConfusion hnil
    · dsimp only
      have hacc := hinv.accounted
      rw [hq, ← Multiset.cons_coe, ← Multiset.singleton_add] at hacc
      have hsum := sum_inFlight_update s.workers w (.checking u)
      rw [hlock, show inFlight WStatus.hasLock = 0 from rfl, add_zero,
        show inFlight (WStatus.checking u) = ({u} : Multiset String) from rfl] at hsum
      rw [hsum, ← hacc]
      abel
  | closed hlock hq =>
    refine ⟨?_, ?_, ?_⟩
    · intro w' hw'
      dsimp only at hw' ⊢
      by_cases hww : w' = w
      · subst hww
        rw [Function.update_same] at hw'
        rcases hw' with h | ⟨u, h⟩ <;> exact WStatus.noConfusion h
      · rw [Function.update_noteq hww _ _] at hw'
        have h1 := hinv.lockOwner w' hw'
        have h2 := hinv.lockOwner w (Or.inl hlock)
        rw [h1] at h2
        injection h2 with h3
        exact absurd h3 hww
    · intro w' h
      dsimp only at h ⊢
      exact hq
    · dsimp only
      have hsum := sum_inFlight_update s.workers w .done
      rw [hlock, show inFlight WStatus.hasLock = 0 from rfl,
        show inFlight WStatus.done = 0 from rfl, add_zero, add_zero] at hsum
      rw [hsum]
      exact hinv.accounted
  | push u hcheck =>
    refine ⟨?_, ?_, ?_⟩
    · intro w' hw'
      dsimp only at hw' ⊢
      by_cases hww : w' = w
      · subst hww
        rw [Function.update_same] at hw'
        rcases hw' with h | ⟨u', h⟩ <;> exact WStatus.noConfusion h
      · rw [Function.update_noteq hww _ _] at hw'
        have h1 := hinv.lockOwner w' hw'
        have h2 := hinv.lockOwner w (Or.inr ⟨u, hcheck⟩)
        rw [h1] at h2
        injection h2 with h3
        exact absurd h3 hww
    · intro w' h
      dsimp only at h ⊢
      by_cases hww : w' = w
      · subst hww
        rw [Function.update_same] at h
        exact WStatus.noConfusion h
      · rw [Function.update_noteq hww _ _] at h
        exact hinv.doneEmpty w' h
    · dsimp only
      have hacc := hinv.accounted
      have hsum := sum_inFlight_update s.workers w .idle
      rw [hcheck, show inFlight (WStatus.checking u) = ({u} : Multiset String) from rfl,
        show inFlight WStatus.idle = 0 from rfl, add_zero] at hsum
      have hres : (↑(s.results ++ [u]) : Multiset String) = ↑s.results + {u} := by
        rw [← Multiset.coe_add]
        rfl
      rw [hres, ← hacc, ← hsum]
      abel

theorem inv_reachable {n : Nat} {urls : List String} {s : PoolState n}
    (h : Reachable n urls s) : PoolInv n urls s := by
  induction h with
  | refl => exact inv_init n urls
  | tail _ hstep ih =>
    obtain ⟨w, hw⟩ := hstep
    exact inv_step ih hw

/-- C1: for every input URL list and every pool of at least one worker,
any run state at the drain barrier (all workers have exited their loops,
which is what the join loop of main waits for) has a results vector that
is a permutation of the input URL list: exactly M results for M input
URLs, none lost, none duplicated, and duplicated input URLs contribute
one independent result each. -/
theorem c1_drain_results_perm (n : Nat) (urls : List String) (s : PoolState n)
    (hn : 1 ≤ n) (hr : Reachable n urls s) (hdone : ∀ w, s.workers w = .done) :
    s.results.Perm urls ∧ s.results.length = urls.length := by
  have hinv := inv_reachable hr
  have hq : s.queue = [] := hinv.doneEmpty ⟨0, hn⟩ (hdone ⟨0, hn⟩)
  have hsum : (∑ x : Fin n, inFlight (s.workers x)) = 0 := by
    apply Finset.sum_eq_zero
    intro x _
    rw [hdone x]
    rfl
  have hacc := hinv.accounted
  rw [hq, hsum] at hacc
  simp only [Multiset.coe_nil, zero_add, add_zero] at hacc
  have hperm : s.results.Perm urls := Multiset.coe_eq_coe.1 hacc
  exact ⟨hperm, hperm.length_eq⟩

theorem c1_drain_results_perm_wit :
    (["http://a"] : List String).Perm ["http://a"] ∧
      (["http://a"] : List String).length = (["http://a"] : List String).length := by
  have hreach : Reachable 1 ["http://a"]
      { queue := [],
        lock := none,
        workers := Function.update (Function.update (Function.update (Function.update
          (Function.update (fun _ => WStatus.idle) 0 .hasLock) 0 (.checking "http://a"))
          0 .idle) 0 .hasLock) 0 .done,
        results := [] ++ ["http://a"] } := by
    refine Relation.ReflTransGen.head ⟨0, PStep.acquire 0 _ rfl rfl⟩ ?_
    refine Relation.ReflTransGen.head ⟨0, PStep.recv 0 _ "http://a" [] rfl rfl⟩ ?_
    refine Relation.ReflTransGen.head ⟨0, PStep.push 0 _ "http://a" rfl⟩ ?_
    refine Relation.ReflTransGen.head ⟨0, PStep.acquire 0 _ rfl rfl⟩ ?_
    refine Relation.ReflTransGen.head ⟨0, PStep.closed 0 _ rfl rfl⟩ ?_
    exact Relation.ReflTransGen.refl
  exact c1_drain_results_perm 1 ["http://a"] _ (by omega) hreach (by decide)

/-- C9 (refuted, code bug): a reachable state of a 2-worker pool in which
worker 0 is inside the attempt sequence of its URL and worker 1, although
idle with another job still queued, has no possible step at all: the
while-let guard keeps the receiver mutex locked for the whole loop body,
so a slow URL on one worker blocks every other worker. This contradicts
the claim that other workers can concurrently pull and process other jobs
while one worker is inside a URL's attempt sequence. -/
theorem c9_worker_blocked :
    Reachable 2 ["http://slow", "http://fast"] blockedState ∧
    blockedState.workers 0 = .checking "http://slow" ∧
    blockedState.workers 1 = .idle ∧
    blockedState.queue ≠ [] ∧
    ¬ ∃ t, PStep 1 blockedState t := by
  refine ⟨?_, by decide, by decide, by decide, ?_⟩
  · refine Relation.ReflTransGen.head ⟨0, PStep.acquire 0 _ rfl rfl⟩ ?_
    refine Relation.ReflTransGen.head
      ⟨0, PStep.recv 0 _ "http://slow" ["http://fast"] rfl rfl⟩ ?_
    exact Relation.ReflTransGen.refl
  · rintro ⟨t, hstep⟩
    cases hstep with
    | acquire hidle hfree => exact absurd hfree (by decide)
    | recv u rest hlock hq => exact absurd hlock (by decide)
    | closed hlock hq => exact absurd hlock (by decide)
    | push u hcheck =>
      have hidle : blockedState.workers 1 = WStatus.idle := by decide
      rw [hidle] at hcheck
      cases hcheck

/- ------------------------------------------------------------------ -/
/- Theorems about configuration handling and the JSON report           -/
/- ------------------------------------------------------------------ -/

set_option maxRecDepth 8192 in
/-- C5 counterexample: the setup phase accepts a worker count of 0 and a
timeout of 0 (the only non-positive values of the unsigned types used)
and proceeds to dispatch with them, so a non-positive worker count or
timeout is not a fatal configuration failure; only the empty URL list
is checked (main.rs lines 109-113). -/
theorem c5_zero_config_accepted :
    mainSetup 4 (fun _ => .error "no fs")
      ["website_checker", "--workers", "0", "http://a"] =
      .ok ⟨["http://a"], 0, 5, 0⟩ ∧
    mainSetup 4 (fun _ => .error "no fs")
      ["website_checker", "--timeout", "0", "http://a"] =
      .ok ⟨["http://a"], 4, 0, 0⟩ :=
  ⟨rfl, rfl⟩

/-- C5 (amended): an empty URL list is fatal before dispatch — the setup
phase never hands the dispatch phase a configuration with no URLs, it
exits with code 2 instead — while a zero worker count or zero timeout is
accepted and the run proceeds to dispatch (see the counterexample). -/
theorem c5_empty_urls_fatal (cpuCount : Nat)
    (readFile : String → Except String String) (args : List String)
    (cfg : RunConfig) (h : mainSetup cpuCount readFile args = .ok cfg) :
    cfg.urls ≠ [] := by
  unfold mainSetup at h
  split at h
  · exact absurd h (by simp)
  · split at h
    · exact absurd h (by simp)
    · split at h
      · split at h
        · exact absurd h (by simp)
        · rename_i hemp
          injection h with h'
          subst h'
          simpa using hemp
      · split at h
        · dsimp only at h
          split at h
          · exact absurd h (by simp)
          · rename_i hemp
            injection h with h'
            subst h'
            simpa using hemp
        · exact absurd h (by simp)

set_option maxRecDepth 8192 in
theorem c5_empty_urls_fatal_wit :
    (RunConfig.mk ["http://a"] 4 5 0).urls ≠ [] :=
  c5_empty_urls_fatal 4 (fun _ => .error "no fs") ["website_checker", "http://a"]
    ⟨["http://a"], 4, 5, 0⟩ rfl

set_option maxRecDepth 8192 in
/-- C10: the JSON writer splices the result fields into its template
verbatim — for a result whose url contains a double quote the emitted
status.json document is the template with the raw quote in the middle of
a string literal — and that document is rejected even by the permissive
JSON checker: the emitted content is not valid JSON. -/
theorem c10_report_unescaped_invalid :
    reportJson [⟨"http://e\"vil", .ok 200, 5, "2025-01-01T00:00:00"⟩] =
      "[\n  \x7b\n    \"url\": \"http://e\"vil\",\n    \"status\": \x7b \"Ok\": 200 \x7d,\n    \"response_time_ms\": 5,\n    \"timestamp\": \"2025-01-01T00:00:00\"\n  \x7d\n]\n" ∧
    jsonValid
      (reportJson [⟨"http://e\"vil", .ok 200, 5, "2025-01-01T00:00:00"⟩]) = false :=
  ⟨rfl, by decide⟩

end WSC
